import Mathlib

/-!
Shallow embedding of the file-opening core of the vendored `fsspec` library
(`core.py`): the `OpenFile` wrapper (construction, scoped entry, layered
close), `split_protocol`, compression resolution, the list branch of
`get_fs_token_paths`, and the write-mode path expanders
`expand_paths_if_needed` / `_expand_paths`.

Python strings are modelled as Lean `String`, file objects as explicit
records with an identity and a closed flag, raised exceptions as
`Except String`, and the side effects of `flush`/`close` as an event trace.
-/

namespace FsspecCore

/-! ### String primitives mirroring the Python string operations used in core.py -/

/-- Replace every occurrence of the character `old` by the list `rep`
(Python `str.replace` with a one-character pattern, the only form core.py uses). -/
def replaceChar (old : Char) (rep : List Char) : List Char → List Char
  | [] => []
  | c :: cs => if c = old then rep ++ replaceChar old rep cs else c :: replaceChar old rep cs

/-- Python `s.replace(old, rep)` for a one-character pattern `old`. -/
def py_replace (s : String) (old : Char) (rep : String) : String :=
  String.mk (replaceChar old rep.data s.data)

/-- Split a character list at the first occurrence of `sep`:
`some (before, after)` when `sep` occurs, `none` otherwise.  This models the
pair Python `"sep" in s` / `s.split(sep, 1)` used by `split_protocol`. -/
def findSplit (sep : List Char) : List Char → Option (List Char × List Char)
  | [] => none
  | c :: cs =>
    if sep.isPrefixOf (c :: cs) then some ([], List.drop sep.length (c :: cs))
    else (findSplit sep cs).map (fun ab => (c :: ab.1, ab.2))

/-- Python `c in s` for a single character `c`. -/
def hasChar (s : String) (c : Char) : Bool := decide (c ∈ s.data)

/-- Python `s.count(c)` for a single character `c`. -/
def countChar (s : String) (c : Char) : Nat := s.data.count c

/-- Python `sub in s` for a multi-character substring. -/
def hasSubstr (s : String) (sub : String) : Bool := (findSplit sub.data s.data).isSome

/-- Python `s.endswith(suffix)`. -/
def str_endsWith (s suffix : String) : Bool := List.isSuffixOf suffix.data s.data

/-- Test whether the first character is the path separator
(Python `b.startswith("/")`). -/
def startsWithSlash (s : String) : Bool :=
  match s.data with
  | [] => false
  | c :: _ => c = '/'

/-- Test whether the last character is the path separator
(Python `a.endswith("/")`). -/
def endsWithSlash (s : String) : Bool :=
  match s.data.getLast? with
  | some c => c = '/'
  | none => false

/-- Embedding of `os.path.join` on POSIX for exactly two components, as used
by `_expand_paths` (`os.path.join(path, "*.part")`): an absolute second
component replaces the first; otherwise the components are joined, inserting
"/" unless the first is empty or already ends in "/". -/
def posixpath_join (a b : String) : String :=
  if startsWithSlash b then b
  else if a = "" ∨ endsWithSlash a then a ++ b
  else a ++ "/" ++ b

/-! ### Compression registry (external modules, modelled from the spec) -/

/-- Modelled from the spec: the Compression Registry `compr` lives in the
compression module, which is not among the available source files.  The spec
names "gzip" and "bz2" as registered codec names; only the set of registered
names is relevant to this core. -/
def compr : List String := ["gzip", "bz2"]

/-- Modelled from the spec: `infer_compression` (utils module, not among the
available source files) looks up the filename suffix in a known extension
table; per the spec examples, a ".gz" suffix yields "gzip", a ".bz2" suffix
yields "bz2", and an unknown suffix yields none. -/
def infer_compression (urlpath : String) : Option String :=
  if str_endsWith urlpath ".gz" then some "gzip"
  else if str_endsWith urlpath ".bz2" then some "bz2"
  else none

/-- `get_compression(urlpath, compression)` from core.py: replace the
`"infer"` sentinel by suffix inference, then require the result to be a
registered codec name or `None`; otherwise raise `ValueError`. -/
def get_compression (urlpath : String) (compression : Option String) :
    Except String (Option String) :=
  let compression := if compression = some "infer" then infer_compression urlpath
                     else compression
  match compression with
  | some c =>
    if c ∈ compr then Except.ok (some c)
    else Except.error ("Compression type " ++ c ++ " not supported")
  | none => Except.ok none

/-! ### File objects and the OpenFile wrapper -/

/-- The kind of a layered stream object created during scoped entry:
the raw binary stream (`fs.open(path, mode)`), a decompressor
(`compr[codec](f, mode=mode[0])`), or the text wrapper
(`io.TextIOWrapper(f, encoding, errors, newline)`). -/
inductive FileObjKind where
  | raw : String → String → FileObjKind
  | decomp : String → Char → FileObjKind
  | text : Option String → Option String → Option String → FileObjKind
deriving DecidableEq

/-- A layered stream object: an identity (creation index), its kind, and its
closed flag (Python `f.closed`). -/
structure FileObj where
  sid : Nat
  kind : FileObjKind
  closed : Bool
deriving DecidableEq

/-- An observable I/O action performed by `_close`: `f.flush()` or
`f.close()` on the file object with the given identity. -/
inductive Ev where
  | flush : Nat → Ev
  | close : Nat → Ev
deriving DecidableEq

/-- The `OpenFile` wrapper: filesystem handle (abstract identity), path,
mode, resolved compression, text options, and the list of currently-open
layered stream objects (`self.fobjects`). -/
structure OpenFile where
  fs : Nat
  path : String
  mode : String
  compression : Option String
  encoding : Option String
  errors : Option String
  newline : Option String
  fobjects : List FileObj
deriving DecidableEq

/-- Embedding of `OpenFile.__init__` (defaults in the source: mode "rb",
compression/encoding/errors/newline None): stores the attributes, resolves
compression through `get_compression` (raising on an unknown codec before
any I/O), and starts with an empty layer list. -/
def OpenFile.init (fs : Nat) (path : String) (mode : String)
    (compression : Option String) (encoding : Option String)
    (errors : Option String) (newline : Option String) :
    Except String OpenFile :=
  match get_compression path compression with
  | Except.error e => Except.error e
  | Except.ok c =>
    Except.ok { fs := fs, path := path, mode := mode, compression := c,
                encoding := encoding, errors := errors, newline := newline,
                fobjects := [] }

/-- `OpenFile.__reduce__`: the wrapper serializes to its seven attributes
`(fs, path, mode, compression, encoding, errors, newline)`. -/
def OpenFile.reduceArgs (of_ : OpenFile) :
    Nat × String × String × Option String × Option String × Option String × Option String :=
  (of_.fs, of_.path, of_.mode, of_.compression, of_.encoding, of_.errors, of_.newline)

/-- Reconstruction from the serialized tuple: `OpenFile(*args)`. -/
def OpenFile.reconstruct
    (t : Nat × String × String × Option String × Option String × Option String × Option String) :
    Except String OpenFile :=
  OpenFile.init t.1 t.2.1 t.2.2.1 t.2.2.2.1 t.2.2.2.2.1 t.2.2.2.2.2.1 t.2.2.2.2.2.2

/-- The binary mode computed at scoped entry:
`self.mode.replace("t", "").replace("b", "") + "b"`. -/
def enter_bin_mode (mode : String) : String :=
  py_replace (py_replace mode 't' "") 'b' "" ++ "b"

/-- `OpenFile.__enter__`: open the raw binary stream, layer a decompressor
when compression is set (a `KeyError`, modelled as `none`, if the codec is
not registered), layer a text wrapper when the mode does not contain `"b"`,
record the layers in `self.fobjects` in creation order, and return the last
layer (`self.fobjects[-1]`). -/
def OpenFile.enter (of_ : OpenFile) : Option (OpenFile × FileObj) :=
  let m := enter_bin_mode of_.mode
  let raw : FileObj := ⟨0, FileObjKind.raw of_.path m, false⟩
  match of_.compression with
  | some c =>
    if c ∈ compr then
      let d : FileObj := ⟨1, FileObjKind.decomp c (m.data.headD 'b'), false⟩
      if hasChar of_.mode 'b' then some ({ of_ with fobjects := [raw, d] }, d)
      else
        let t : FileObj := ⟨2, FileObjKind.text of_.encoding of_.errors of_.newline, false⟩
        some ({ of_ with fobjects := [raw, d, t] }, t)
    else none
  | none =>
    if hasChar of_.mode 'b' then some ({ of_ with fobjects := [raw] }, raw)
    else
      let t : FileObj := ⟨1, FileObjKind.text of_.encoding of_.errors of_.newline, false⟩
      some ({ of_ with fobjects := [raw, t] }, t)

/-- The events one iteration of the `_close` loop performs on a layer `f`:
`if "r" not in mode and not f.closed: f.flush()` followed by `f.close()`. -/
def closeEvents (mode : String) (f : FileObj) : List Ev :=
  (if hasChar mode 'r' = false ∧ f.closed = false then [Ev.flush f.sid] else []) ++
    [Ev.close f.sid]

/-- `_close(fobjects, mode)` from core.py: walk the layers in reverse order,
flushing not-yet-closed layers when the mode is not a read mode, closing
every layer, and finally clearing the list.  Returns the event trace and the
cleared list. -/
def _close (fobjects : List FileObj) (mode : String) : List Ev × List FileObj :=
  (fobjects.reverse.foldl (fun acc f => acc ++ closeEvents mode f) [], [])

/-- `OpenFile.close`: `_close(self.fobjects, self.mode)`. -/
def OpenFile.close (of_ : OpenFile) : List Ev × OpenFile :=
  let r := _close of_.fobjects of_.mode
  (r.1, { of_ with fobjects := r.2 })

/-- `OpenFile.__exit__` invokes `self.close()` on every exit path. -/
def OpenFile.exitScope (of_ : OpenFile) : List Ev × OpenFile := of_.close

/-! ### Protocol/URL parsing -/

/-- `split_protocol(urlpath)` from core.py: if `"://"` occurs, split at the
first occurrence into `(protocol, path)`; the pair is returned only when
`len(protocol) > 1` (excluding Windows drive letters), otherwise the result
is `(None, urlpath)`. -/
def split_protocol (urlpath : String) : Option String × String :=
  match findSplit "://".data urlpath.data with
  | some (protocol, path) =>
    if 1 < protocol.length then (some (String.mk protocol), String.mk path)
    else (none, urlpath)
  | none => (none, urlpath)

/-! ### Write-mode path expansion -/

/-- Modelled from the spec: `build_name_function(max_int)` (utils module, not
among the available source files) is the default zero-padded-index name
function; its width is the decimal width of `max_int`. -/
def build_name_function (maxInt : Nat) : Nat → String := fun i =>
  let s := toString i
  let width := (toString maxInt).length
  String.mk (List.replicate (width - s.length) '0') ++ s

/-- `_expand_paths(path, name_function, num)` from core.py, for the string
branch (the only one the expanders invoke on templates): reject more than
one `"*"`, append the `"*.part"` member for a bare directory, default the
name function, and substitute `name_function(i)` for the placeholder for
each `i in range(num)`.  The non-fatal sort-order warning is not an error
and is not modelled. -/
def _expand_paths (path : String) (name_function : Option (Nat → String)) (num : Nat) :
    Except String (List String) :=
  if 1 < countChar path '*' then
    Except.error "Output path spec must contain exactly one placeholder"
  else
    let path := if hasChar path '*' then path else posixpath_join path "*.part"
    let nf := match name_function with
      | some g => g
      | none => build_name_function (num - 1)
    Except.ok ((List.range num).map (fun i => py_replace path '*' (nf i)))

/-- The accumulator loop of `expand_paths_if_needed`: for each path, extend
with `_expand_paths` (write mode) or `fs.glob` (read mode) when it contains
`"*"`, else append it unchanged.  `num` is the already-maxed count. -/
def expand_loop (mode : String) (num : Nat) (glob : String → List String)
    (name_function : Option (Nat → String)) :
    List String → List String → Except String (List String)
  | acc, [] => Except.ok acc
  | acc, curr :: rest =>
    if hasChar curr '*' then
      if hasChar mode 'w' then
        match _expand_paths curr name_function num with
        | Except.error e => Except.error e
        | Except.ok e => expand_loop mode num glob name_function (acc ++ e) rest
      else expand_loop mode num glob name_function (acc ++ glob curr) rest
    else expand_loop mode num glob name_function (acc ++ [curr]) rest

/-- `expand_paths_if_needed(paths, mode, num, fs, name_function)` from
core.py: in write mode, reject more than one path containing `"*"`, raise
the expected count to `max(num, len(paths))`, expand, and finally truncate
to that count when more paths were produced.  The filesystem argument is
represented by its only used capability, `glob`. -/
def expand_paths_if_needed (paths : List String) (mode : String) (num : Nat)
    (glob : String → List String) (name_function : Option (Nat → String)) :
    Except String (List String) :=
  if hasChar mode 'w' ∧ 1 < (paths.filter (fun p => hasChar p '*')).length then
    Except.error "When writing data, only one filename mask can be specified"
  else
    let num := if hasChar mode 'w' then max num paths.length else num
    match expand_loop mode num glob name_function [] paths with
    | Except.error e => Except.error e
    | Except.ok expanded =>
      if hasChar mode 'w' ∧ num < expanded.length then Except.ok (expanded.take num)
      else Except.ok expanded

/-! ### List-input resolution (`get_fs_token_paths`, non-chained branch) -/

/-- Modelled from the spec: a filesystem implementation class as resolved by
the Filesystem Registry (`get_filesystem_class`, registry module, not among
the available source files).  Only the capabilities the list branch of
`get_fs_token_paths` consumes are represented: `_get_kwargs_from_urls`,
`_strip_protocol`, and the class constructor. -/
structure FSClass (Opt FS : Type) where
  get_kwargs_from_urls : String → Opt
  strip_protocol : String → String
  construct : Opt → FS

/-- Outcome of `get_fs_token_paths` on list input.  A filesystem instance is
constructed (`cls(**options)`) only on the `ok` path; every error
constructor is produced before any `FSClass.construct` application.  Inputs whose
elements all contain the chain delimiter `"::"` take the chained branch of
the source, which is outside this model (`chained`). -/
inductive ListResolve (FS : Type) where
  | ok : FS → List String → ListResolve FS
  | emptyUrlpath : ListResolve FS
  | protocolMismatch : ListResolve FS
  | optionsMismatch : ListResolve FS
  | chained : ListResolve FS
deriving DecidableEq

/-- The list branch of `get_fs_token_paths(urlpath, ...)` from core.py: an
empty sequence is rejected; when `_un_chain` yields a chain (which for list
input happens exactly when every element contains `"::"`) the chained branch
runs (not modelled); otherwise the elements' protocols from `split_protocol`
must all agree (checked only when the `protocol` argument is `None`, which
is its default), the per-URL options derived by the class must all agree,
and only then is the filesystem instantiated on the stripped paths.
`update_storage_options(options, storage_options)` is represented by the
abstract `merge`. -/
def get_fs_token_paths_list {Opt FS : Type} [DecidableEq Opt]
    (cls_of : Option String → FSClass Opt FS)
    (merge : Opt → Opt → Opt) (storage_options : Opt)
    (protocol : Option String) (urlpath : List String) : ListResolve FS :=
  match urlpath with
  | [] => ListResolve.emptyUrlpath
  | u0 :: us =>
    if (u0 :: us).all (fun p => hasSubstr p "::") then ListResolve.chained
    else
      let protocols := (u0 :: us).map (fun u => (split_protocol u).1)
      let go : Option String → ListResolve FS := fun pr =>
        let cls := cls_of pr
        let optionss := (u0 :: us).map cls.get_kwargs_from_urls
        let paths := (u0 :: us).map cls.strip_protocol
        let options := cls.get_kwargs_from_urls u0
        if optionss.all (fun o => decide (o = options)) then
          ListResolve.ok (cls.construct (merge options storage_options)) paths
        else ListResolve.optionsMismatch
      match protocol with
      | none =>
        if protocols.all (fun p => decide (p = (split_protocol u0).1)) then go ((split_protocol u0).1)
        else ListResolve.protocolMismatch
      | some pr => go (some pr)

/-- Recognizer for `close` events, used to state teardown order. -/
def Ev.isCloseEv : Ev → Bool
  | Ev.close _ => true
  | Ev.flush _ => false

/-! Helper lemmas about the string primitives. -/

theorem isPrefixOf_exists_append :
    ∀ (s l : List Char), s.isPrefixOf l = true → ∃ t, l = s ++ t := by
  intro s
  induction s with
  | nil => intro l _; exact ⟨l, rfl⟩
  | cons a as ih =>
    intro l h
    cases l with
    | nil => simp [List.isPrefixOf] at h
    | cons b bs =>
      simp only [List.isPrefixOf, Bool.and_eq_true, beq_iff_eq] at h
      obtain ⟨t, ht⟩ := ih bs h.2
      exact ⟨t, by simp [h.1, ht]⟩

theorem isPrefixOf_append_right (s : List Char) :
    ∀ l r : List Char, s.isPrefixOf l = true → s.isPrefixOf (l ++ r) = true := by
  induction s with
  | nil => intro l r _; simp [List.isPrefixOf]
  | cons a as ih =>
    intro l r h
    cases l with
    | nil => simp [List.isPrefixOf] at h
    | cons b bs =>
      simp only [List.cons_append, List.isPrefixOf, Bool.and_eq_true, beq_iff_eq] at h ⊢
      exact ⟨h.1, ih bs r h.2⟩

theorem findSplit_decomp :
    ∀ (sep l a b : List Char), findSplit sep l = some (a, b) → l = a ++ sep ++ b := by
  intro sep l
  induction l with
  | nil => intro a b h; simp [findSplit] at h
  | cons c cs ih =>
    intro a b h
    rw [findSplit] at h
    by_cases hp : sep.isPrefixOf (c :: cs) = true
    · rw [if_pos hp] at h
      simp only [Option.some.injEq, Prod.mk.injEq] at h
      obtain ⟨h1, h2⟩ := h
      subst h1
      subst h2
      obtain ⟨t, ht⟩ := isPrefixOf_exists_append sep (c :: cs) hp
      simp [ht, List.drop_left]
    · rw [if_neg hp] at h
      cases hcs : findSplit sep cs with
      | none => rw [hcs] at h; simp at h
      | some ab =>
        obtain ⟨a', b'⟩ := ab
        rw [hcs] at h
        simp only [Option.map_some', Option.some.injEq, Prod.mk.injEq] at h
        obtain ⟨h1, h2⟩ := h
        subst h1
        subst h2
        simp [ih a' b' hcs]

theorem findSplit_first :
    ∀ (sep l a b : List Char), findSplit sep l = some (a, b) → findSplit sep a = none := by
  intro sep l
  induction l with
  | nil => intro a b h; simp [findSplit] at h
  | cons c cs ih =>
    intro a b h
    rw [findSplit] at h
    by_cases hp : sep.isPrefixOf (c :: cs) = true
    · rw [if_pos hp] at h
      simp only [Option.some.injEq, Prod.mk.injEq] at h
      obtain ⟨h1, _⟩ := h
      subst h1
      rfl
    · rw [if_neg hp] at h
      cases hcs : findSplit sep cs with
      | none => rw [hcs] at h; simp at h
      | some ab =>
        obtain ⟨a', b'⟩ := ab
        rw [hcs] at h
        simp only [Option.map_some', Option.some.injEq, Prod.mk.injEq] at h
        obtain ⟨h1, h2⟩ := h
        subst h1
        subst h2
        have hfirst := ih a' b' hcs
        have hdec := findSplit_decomp sep cs a' b' hcs
        rw [findSplit]
        have hnp : ¬ sep.isPrefixOf (c :: a') = true := by
          intro hcon
          exact hp (by
            have hx := isPrefixOf_append_right sep (c :: a') (sep ++ b') hcon
            simpa [hdec] using hx)
        rw [if_neg hnp, hfirst]
        rfl

theorem replaceChar_of_not_mem (old : Char) (rep : List Char) :
    ∀ l : List Char, old ∉ l → replaceChar old rep l = l := by
  intro l
  induction l with
  | nil => intro _; rfl
  | cons c cs ih =>
    intro h
    have hc : ¬ c = old := by
      intro hco
      exact h (by rw [← hco]; exact List.mem_cons_self c cs)
    rw [replaceChar, if_neg hc, ih (fun hm => h (List.mem_cons_of_mem c hm))]

theorem replaceChar_single (old : Char) (rep : List Char) :
    ∀ l1 l2 : List Char, old ∉ l1 → old ∉ l2 →
      replaceChar old rep (l1 ++ old :: l2) = l1 ++ rep ++ l2 := by
  intro l1
  induction l1 with
  | nil =>
    intro l2 _ h2
    show replaceChar old rep (old :: l2) = [] ++ rep ++ l2
    rw [replaceChar, if_pos rfl, replaceChar_of_not_mem old rep l2 h2]
    simp
  | cons c cs ih =>
    intro l2 h1 h2
    have hc : ¬ c = old := by
      intro hco
      exact h1 (by rw [← hco]; exact List.mem_cons_self c cs)
    have hcs : old ∉ cs := fun hm => h1 (List.mem_cons_of_mem c hm)
    show replaceChar old rep (c :: (cs ++ old :: l2)) = (c :: cs) ++ rep ++ l2
    rw [replaceChar, if_neg hc, ih l2 hcs h2]
    simp

theorem hasChar_false_of_count_zero (s : String) (c : Char) (h : countChar s c = 0) :
    hasChar s c = false := by
  have : c ∉ s.data := List.count_eq_zero.mp h
  simp [hasChar, this]

theorem hasChar_true_of_count_pos (s : String) (c : Char) (h : 0 < countChar s c) :
    hasChar s c = true := by
  have : c ∈ s.data := List.count_pos_iff.mp h
  simp [hasChar, this]

/-! Helper lemmas about `_close`. -/

theorem foldl_append_closeEvents (mode : String) :
    ∀ (l : List FileObj) (init : List Ev),
      l.foldl (fun acc f => acc ++ closeEvents mode f) init =
        init ++ l.flatMap (closeEvents mode) := by
  intro l
  induction l with
  | nil => intro init; simp
  | cons f fs ih =>
    intro init
    simp only [List.foldl_cons, List.flatMap_cons, ih, List.append_assoc]

theorem _close_events (fobjects : List FileObj) (mode : String) :
    (_close fobjects mode).1 = fobjects.reverse.flatMap (closeEvents mode) := by
  show fobjects.reverse.foldl (fun acc f => acc ++ closeEvents mode f) [] = _
  rw [foldl_append_closeEvents]
  simp

theorem flush_mem_closeEvents (mode : String) (f g : FileObj) :
    Ev.flush f.sid ∈ closeEvents mode g ↔
      (g.sid = f.sid ∧ hasChar mode 'r' = false ∧ g.closed = false) := by
  unfold closeEvents
  by_cases h : hasChar mode 'r' = false ∧ g.closed = false
  · rw [if_pos h]
    simp [h.1, h.2, eq_comm]
  · rw [if_neg h]
    constructor
    · intro hs
      simp at hs
    · rintro ⟨_, hA, hB⟩
      exact absurd ⟨hA, hB⟩ h

theorem close_filter_three (mode : String) (s0 s1 s2 : FileObj) :
    ((_close [s0, s1, s2] mode).1.filter Ev.isCloseEv) =
      [Ev.close s2.sid, Ev.close s1.sid, Ev.close s0.sid] := by
  rw [_close_events]
  simp only [List.reverse_cons, List.reverse_nil, List.nil_append, List.cons_append,
    List.flatMap_cons, List.flatMap_nil, List.append_nil, closeEvents, List.filter_append]
  split <;> split <;> split <;> rfl

theorem enter_text_compressed (of_ : OpenFile) (c : String)
    (hc : of_.compression = some c) (hreg : c ∈ compr)
    (hm : hasChar of_.mode 'b' = false) :
    of_.enter = some ({ of_ with fobjects :=
        [⟨0, FileObjKind.raw of_.path (enter_bin_mode of_.mode), false⟩,
         ⟨1, FileObjKind.decomp c ((enter_bin_mode of_.mode).data.headD 'b'), false⟩,
         ⟨2, FileObjKind.text of_.encoding of_.errors of_.newline, false⟩] },
      ⟨2, FileObjKind.text of_.encoding of_.errors of_.newline, false⟩) := by
  rw [OpenFile.enter]
  simp [hc, if_pos hreg, hm]

/-! Claim theorems. -/

/-- Claim C1: for every OpenFile whose compression is a registered codec and
whose mode is a text mode (no "b"), scoped entry pushes exactly three layers
in the order [raw binary stream, decompressor, text wrapper] and returns the
last one; scoped exit closes those layers in exactly the reverse order
[text wrapper, decompressor, raw stream] and leaves the layer list empty. -/
theorem C1_layer_order (of_ : OpenFile) (c : String)
    (hc : of_.compression = some c) (hreg : c ∈ compr)
    (hm : hasChar of_.mode 'b' = false) :
    ∃ of2 ret,
      of_.enter = some (of2, ret) ∧
      of2.fobjects =
        [⟨0, FileObjKind.raw of_.path (enter_bin_mode of_.mode), false⟩,
         ⟨1, FileObjKind.decomp c ((enter_bin_mode of_.mode).data.headD 'b'), false⟩,
         ⟨2, FileObjKind.text of_.encoding of_.errors of_.newline, false⟩] ∧
      of2.fobjects.getLast? = some ret ∧
      of2.exitScope.1.filter Ev.isCloseEv = [Ev.close 2, Ev.close 1, Ev.close 0] ∧
      of2.exitScope.2.fobjects = [] := by
  refine ⟨{ of_ with fobjects :=
      [⟨0, FileObjKind.raw of_.path (enter_bin_mode of_.mode), false⟩,
       ⟨1, FileObjKind.decomp c ((enter_bin_mode of_.mode).data.headD 'b'), false⟩,
       ⟨2, FileObjKind.text of_.encoding of_.errors of_.newline, false⟩] },
    ⟨2, FileObjKind.text of_.encoding of_.errors of_.newline, false⟩,
    enter_text_compressed of_ c hc hreg hm, rfl, rfl, ?_, rfl⟩
  exact close_filter_three of_.mode _ _ _

/-- Claim C1 witness: a gzip-compressed wrapper in text read mode, with the
entered wrapper's exit trace and cleared layer list read off through the
claim theorem. -/
theorem C1_layer_order_witness :
    (OpenFile.enter ⟨0, "f.txt.gz", "rt", some "gzip", none, none, none, []⟩).map
        (fun p => (p.1.exitScope.1.filter Ev.isCloseEv, p.1.exitScope.2.fobjects)) =
      some ([Ev.close 2, Ev.close 1, Ev.close 0], ([] : List FileObj)) := by
  obtain ⟨of2, ret, h1, _, _, h4, h5⟩ :=
    C1_layer_order ⟨0, "f.txt.gz", "rt", some "gzip", none, none, none, []⟩ "gzip"
      rfl (by decide) (by decide)
  rw [h1]
  simp [h4, h5]

/-- Claim C2 counterexample: in binary write mode "wb" the single raw layer
is flushed before being closed, although the claim says binary-mode layers
are closed directly without a flush. -/
theorem C2_flush_counterexample :
    OpenFile.enter ⟨0, "p", "wb", none, none, none, none, []⟩ =
      some (⟨0, "p", "wb", none, none, none, none,
              [⟨0, FileObjKind.raw "p" "wb", false⟩]⟩,
            ⟨0, FileObjKind.raw "p" "wb", false⟩) ∧
    OpenFile.close ⟨0, "p", "wb", none, none, none, none,
        [⟨0, FileObjKind.raw "p" "wb", false⟩]⟩ =
      ([Ev.flush 0, Ev.close 0], ⟨0, "p", "wb", none, none, none, none, []⟩) ∧
    hasChar "wb" 'b' = true := by
  decide

/-- Claim C2 (amended): when an OpenFile is closed, a tracked layer is
flushed before being closed iff the wrapper's mode is not a read mode
("r" not in mode) and the layer is not already marked closed; in read modes
every layer is closed directly without a flush, regardless of binary/text. -/
theorem C2_flush_rule (fobjects : List FileObj) (mode : String) (f : FileObj)
    (hnd : (fobjects.map FileObj.sid).Nodup) (hf : f ∈ fobjects) :
    Ev.flush f.sid ∈ (_close fobjects mode).1 ↔
      (hasChar mode 'r' = false ∧ f.closed = false) := by
  rw [_close_events]
  rw [List.mem_flatMap]
  constructor
  · rintro ⟨g, hg, hmem⟩
    have hg' : g ∈ fobjects := List.mem_reverse.mp hg
    obtain ⟨hsid, hrest⟩ := (flush_mem_closeEvents mode f g).mp hmem
    have : g = f := List.inj_on_of_nodup_map hnd hg' hf hsid
    exact this ▸ hrest
  · intro hcond
    exact ⟨f, List.mem_reverse.mpr hf, (flush_mem_closeEvents mode f f).mpr ⟨rfl, hcond⟩⟩

/-- Claim C2 witness: the amended rule applied to a single not-yet-closed
raw layer under mode "wb" shows the flush occurs. -/
theorem C2_flush_rule_witness :
    Ev.flush 0 ∈ (_close [⟨0, FileObjKind.raw "p" "wb", false⟩] "wb").1 :=
  (C2_flush_rule [⟨0, FileObjKind.raw "p" "wb", false⟩] "wb"
    ⟨0, FileObjKind.raw "p" "wb", false⟩ (by decide) (by simp)).mpr (by decide)

/-- Claim C5: OpenFile close is idempotent — closing a never-opened wrapper
twice raises nothing and its layer list is empty after both calls; closing
an opened-then-closed wrapper again performs no further events and leaves
the layer list empty after both calls. -/
theorem C5_close_idempotent :
    (∀ (fs : Nat) (path mode : String) (c e r n : Option String) (of_ : OpenFile),
       OpenFile.init fs path mode c e r n = Except.ok of_ →
       of_.fobjects = [] ∧ of_.close.1 = [] ∧ of_.close.2.fobjects = [] ∧
       of_.close.2.close.1 = [] ∧ of_.close.2.close.2.fobjects = []) ∧
    (∀ (of_ of2 : OpenFile) (ret : FileObj), OpenFile.enter of_ = some (of2, ret) →
       of2.close.2.fobjects = [] ∧ of2.close.2.close.1 = [] ∧
       of2.close.2.close.2.fobjects = []) := by
  constructor
  · intro fs path mode c e r n of_ h
    rw [OpenFile.init] at h
    cases hg : get_compression path c with
    | error msg => rw [hg] at h; simp at h
    | ok cr =>
      rw [hg] at h
      simp only [Except.ok.injEq] at h
      subst h
      exact ⟨rfl, rfl, rfl, rfl, rfl⟩
  · intro of_ of2 ret _
    exact ⟨rfl, rfl, rfl⟩

/-- Claim C5 witness: a concrete never-opened wrapper and a concrete
opened-then-closed wrapper. -/
theorem C5_close_idempotent_witness :
    ((OpenFile.close ⟨0, "p", "rb", none, none, none, none, []⟩).2.fobjects = [] ∧
     (OpenFile.close (OpenFile.close ⟨0, "p", "rb", none, none, none, none, []⟩).2).2.fobjects
        = []) ∧
    (OpenFile.close (OpenFile.close ⟨0, "p", "rb", none, none, none, none,
        [⟨0, FileObjKind.raw "p" "rb", false⟩]⟩).2).1 = [] := by
  have h1 := C5_close_idempotent.1 0 "p" "rb" none none none none
    ⟨0, "p", "rb", none, none, none, none, []⟩ rfl
  have h2 := C5_close_idempotent.2
    ⟨0, "p", "rb", none, none, none, none, []⟩
    ⟨0, "p", "rb", none, none, none, none, [⟨0, FileObjKind.raw "p" "rb", false⟩]⟩
    ⟨0, FileObjKind.raw "p" "rb", false⟩ (by decide)
  exact ⟨⟨h1.2.2.1, h1.2.2.2.2⟩, h2.2.1⟩

/-- Claim C4: reconstructing a wrapper from its serialized tuple
(filesystem, path, mode, compression, encoding, errors, newline), as
produced by its reduction, yields a wrapper whose attributes are all
identical to the original's and whose open-layer list is empty.  The
hypothesis is the class invariant every constructed wrapper satisfies:
its resolved compression is none or a registered codec name. -/
theorem C4_reduce_roundtrip (of_ : OpenFile)
    (hc : of_.compression = none ∨ ∃ c, of_.compression = some c ∧ c ∈ compr) :
    OpenFile.reconstruct of_.reduceArgs = Except.ok { of_ with fobjects := [] } := by
  rw [OpenFile.reconstruct, OpenFile.reduceArgs]
  show OpenFile.init of_.fs of_.path of_.mode of_.compression of_.encoding of_.errors
      of_.newline = _
  rcases hc with hc | ⟨c, hc, hreg⟩
  · rw [OpenFile.init, get_compression, hc]
    rfl
  · have hinfer : ¬ c = "infer" := by
      have hcs : c = "gzip" ∨ c = "bz2" := by simpa [compr] using hreg
      rcases hcs with h | h <;> subst h <;> decide
    rw [OpenFile.init, get_compression, hc]
    simp only [Option.some.injEq, if_neg hinfer, if_pos hreg]

/-- Claim C4 witness: a wrapper over "a/b.txt.gz" opened "rb" with
compression "infer" resolves to "gzip" at construction and round-trips
through its reduction unchanged, with zero open layers. -/
theorem C4_reduce_roundtrip_witness :
    OpenFile.init 0 "a/b.txt.gz" "rb" (some "infer") none none none =
      Except.ok ⟨0, "a/b.txt.gz", "rb", some "gzip", none, none, none, []⟩ ∧
    OpenFile.reconstruct
        (OpenFile.reduceArgs ⟨0, "a/b.txt.gz", "rb", some "gzip", none, none, none, []⟩) =
      Except.ok ⟨0, "a/b.txt.gz", "rb", some "gzip", none, none, none, []⟩ :=
  ⟨rfl, C4_reduce_roundtrip ⟨0, "a/b.txt.gz", "rb", some "gzip", none, none, none, []⟩
    (Or.inr ⟨"gzip", rfl, by decide⟩)⟩

/-- Claim C6: OpenFile construction resolves compression "infer" by
filename-suffix lookup against the compression registry, and construction
fails with a configuration error, before any I/O (the model performs none:
a successful construction carries an empty layer list and touches no file
object), exactly when the literal or inferred compression value is neither
none nor a registered codec name. -/
theorem C6_compression_validation (fs : Nat) (path mode : String)
    (compression encoding errors newline : Option String) :
    (∀ of_ : OpenFile,
       OpenFile.init fs path mode compression encoding errors newline = Except.ok of_ →
       of_.compression =
         (if compression = some "infer" then infer_compression path else compression) ∧
       of_.fobjects = []) ∧
    (∀ c : String,
       (if compression = some "infer" then infer_compression path else compression) = some c →
       c ∉ compr →
       ∃ msg, OpenFile.init fs path mode compression encoding errors newline =
         Except.error msg) ∧
    (((if compression = some "infer" then infer_compression path else compression) = none ∨
      ∃ c, (if compression = some "infer" then infer_compression path else compression)
            = some c ∧ c ∈ compr) →
      ∃ of_, OpenFile.init fs path mode compression encoding errors newline =
        Except.ok of_) := by
  refine ⟨?_, ?_, ?_⟩
  · intro of_ h
    rw [OpenFile.init, get_compression] at h
    cases hr : (if compression = some "infer" then infer_compression path else compression) with
    | none =>
      rw [hr] at h
      simp only [Except.ok.injEq] at h
      subst h
      exact ⟨rfl, rfl⟩
    | some c =>
      rw [hr] at h
      by_cases hreg : c ∈ compr
      · simp only [hreg, if_true, Except.ok.injEq] at h
        subst h
        exact ⟨rfl, rfl⟩
      · simp [hreg] at h
  · intro c hr hreg
    refine ⟨"Compression type " ++ c ++ " not supported", ?_⟩
    rw [OpenFile.init, get_compression, hr]
    simp [hreg]
  · intro hok
    rcases hok with hr | ⟨c, hr, hreg⟩
    · refine ⟨⟨fs, path, mode, none, encoding, errors, newline, []⟩, ?_⟩
      rw [OpenFile.init, get_compression, hr]
    · refine ⟨⟨fs, path, mode, some c, encoding, errors, newline, []⟩, ?_⟩
      rw [OpenFile.init, get_compression, hr]
      simp [hreg]

/-- Claim C6 witness: "log.txt.bz2" with compression "infer" resolves to the
"bz2" codec and constructs; "log.txt" resolves to none and constructs; the
unregistered codec "lz77" is rejected at construction. -/
theorem C6_compression_validation_witness :
    OpenFile.init 0 "log.txt.bz2" "rb" (some "infer") none none none =
      Except.ok ⟨0, "log.txt.bz2", "rb", some "bz2", none, none, none, []⟩ ∧
    OpenFile.init 0 "log.txt" "rb" (some "infer") none none none =
      Except.ok ⟨0, "log.txt", "rb", none, none, none, none, []⟩ ∧
    (∃ msg, OpenFile.init 0 "log.txt" "rb" (some "lz77") none none none =
      Except.error msg) := by
  refine ⟨rfl, rfl, ?_⟩
  exact (C6_compression_validation 0 "log.txt" "rb" (some "lz77") none none none).2.1
    "lz77" (by decide) (by decide)

/-- Claim C3 counterexample: "s://x" contains "://" and its protocol part
"s" is non-empty, yet `split_protocol` returns `(none, "s://x")` rather than
the pair `(some "s", "x")` the claim requires, because the source demands
`len(protocol) > 1`. -/
theorem C3_split_counterexample :
    split_protocol "s://x" = (none, "s://x") ∧
    split_protocol "s://x" ≠ (some "s", "x") := by
  decide

/-- Claim C3 (amended): for every path string containing "://",
`split_protocol` splits it at the first occurrence into
(protocol, remainder); the pair is returned whenever the protocol part has
length greater than 1, and whenever its length is at most 1 (empty or a
single character, e.g. a Windows drive letter) the result is
(none, whole original string). -/
theorem C3_split_amended (s : String) (a b : List Char)
    (h : findSplit "://".data s.data = some (a, b)) :
    s.data = a ++ "://".data ++ b ∧
    findSplit "://".data a = none ∧
    (1 < a.length → split_protocol s = (some (String.mk a), String.mk b)) ∧
    (a.length ≤ 1 → split_protocol s = (none, s)) := by
  refine ⟨findSplit_decomp "://".data s.data a b h,
    findSplit_first "://".data s.data a b h, ?_, ?_⟩
  · intro hlen
    simp only [split_protocol, h]
    rw [if_pos hlen]
  · intro hlen
    simp only [split_protocol, h]
    rw [if_neg (by omega : ¬ 1 < a.length)]

/-- Claim C3 witness: "s3://x" splits at its "://" into the length-2
protocol "s3" and remainder "x". -/
theorem C3_split_amended_witness :
    "s3://x".data = ['s', '3'] ++ "://".data ++ ['x'] ∧
    findSplit "://".data ['s', '3'] = none ∧
    split_protocol "s3://x" = (some (String.mk ['s', '3']), String.mk ['x']) := by
  obtain ⟨h1, h2, h3, _⟩ := C3_split_amended "s3://x" ['s', '3'] ['x'] (by decide)
  exact ⟨h1, h2, h3 (by decide)⟩

/-- Claim C7: for every non-chained, non-empty list of input paths resolved
with the default protocol argument (None), `get_fs_token_paths` fails with
the protocol-mismatch error whenever two elements resolve to different
protocols, and with the options-mismatch error whenever the protocols agree
but two elements derive different filesystem options; both errors are
produced before any filesystem object is instantiated (the filesystem
constructor `FSClass.construct` is applied only on the `ok` path). -/
theorem C7_list_mismatch {Opt FS : Type} [DecidableEq Opt]
    (cls_of : Option String → FSClass Opt FS) (merge : Opt → Opt → Opt)
    (storage_options : Opt) (u0 : String) (us : List String)
    (hnc : ∀ p ∈ u0 :: us, hasSubstr p "::" = false) :
    ((∃ p ∈ u0 :: us, (split_protocol p).1 ≠ (split_protocol u0).1) →
       get_fs_token_paths_list cls_of merge storage_options none (u0 :: us) =
         ListResolve.protocolMismatch) ∧
    ((∀ p ∈ u0 :: us, (split_protocol p).1 = (split_protocol u0).1) →
     (∃ p ∈ u0 :: us,
        (cls_of (split_protocol u0).1).get_kwargs_from_urls p ≠
          (cls_of (split_protocol u0).1).get_kwargs_from_urls u0) →
       get_fs_token_paths_list cls_of merge storage_options none (u0 :: us) =
         ListResolve.optionsMismatch) := by
  have hguard : ¬ ((u0 :: us).all (fun p => hasSubstr p "::") = true) := by
    intro hall
    have hx := List.all_eq_true.mp hall u0 (List.mem_cons_self u0 us)
    rw [hnc u0 (List.mem_cons_self u0 us)] at hx
    exact Bool.false_ne_true hx
  constructor
  · rintro ⟨p, hp, hne⟩
    have hnall : ¬ (((u0 :: us).map (fun u => (split_protocol u).1)).all
        (fun q => decide (q = (split_protocol u0).1)) = true) := by
      intro hall
      have hx := List.all_eq_true.mp hall ((split_protocol p).1)
        (List.mem_map_of_mem (fun u => (split_protocol u).1) hp)
      exact hne (of_decide_eq_true hx)
    simp only [get_fs_token_paths_list]
    rw [if_neg hguard, if_neg hnall]
  · rintro hallp ⟨p, hp, hne⟩
    have hall : ((u0 :: us).map (fun u => (split_protocol u).1)).all
        (fun q => decide (q = (split_protocol u0).1)) = true := by
      rw [List.all_eq_true]
      intro q hq
      obtain ⟨x, hx, hxq⟩ := List.mem_map.mp hq
      rw [← hxq]
      exact decide_eq_true (hallp x hx)
    have hnopt : ¬ ((((u0 :: us).map
          (cls_of (split_protocol u0).1).get_kwargs_from_urls).all
        (fun o => decide (o = (cls_of (split_protocol u0).1).get_kwargs_from_urls u0)))
          = true) := by
      intro hall2
      have hx := List.all_eq_true.mp hall2 _
        (List.mem_map_of_mem (cls_of (split_protocol u0).1).get_kwargs_from_urls hp)
      exact hne (of_decide_eq_true hx)
    simp only [get_fs_token_paths_list]
    rw [if_neg hguard, if_pos hall, if_neg hnopt]

/-- Claim C7 witness: the spec's example list with an s3 and a gcs element
fails with the protocol-mismatch outcome. -/
theorem C7_list_mismatch_witness :
    @get_fs_token_paths_list Nat Unit _
      (fun _ => ⟨fun u => u.length, fun u => u, fun _ => ()⟩)
      (fun a _ => a) 0 none ["s3://bucket/a", "gcs://bucket/b"] =
      ListResolve.protocolMismatch :=
  (C7_list_mismatch (fun _ => ⟨fun u => u.length, fun u => u, fun _ => ()⟩)
    (fun a _ => a) 0 "s3://bucket/a" ["gcs://bucket/b"] (by decide)).1
    ⟨"gcs://bucket/b", by simp, by decide⟩

theorem expand_loop_error_case (mode : String) (num : Nat) (glob : String → List String)
    (nf : Option (Nat → String)) (hw : hasChar mode 'w' = true) :
    ∀ (l1 : List String) (p : String) (l2 : List String) (acc : List String),
      (∀ q ∈ l1, hasChar q '*' = false) → 1 < countChar p '*' →
      expand_loop mode num glob nf acc (l1 ++ p :: l2) =
        Except.error "Output path spec must contain exactly one placeholder" := by
  intro l1
  induction l1 with
  | nil =>
    intro p l2 acc _ hp
    have hstar : hasChar p '*' = true := hasChar_true_of_count_pos p '*' (by omega)
    show expand_loop mode num glob nf acc (p :: l2) = _
    rw [expand_loop, if_pos hstar, if_pos hw]
    unfold _expand_paths
    rw [if_pos hp]
  | cons q l1' ih =>
    intro p l2 acc hq hp
    have hq0 : hasChar q '*' = false := hq q (List.mem_cons_self q l1')
    have hcond : ¬ (hasChar q '*' = true) := by
      rw [hq0]
      exact Bool.false_ne_true
    show expand_loop mode num glob nf acc (q :: (l1' ++ p :: l2)) = _
    rw [expand_loop, if_neg hcond]
    exact ih p l2 (acc ++ [q]) (fun r hr => hq r (List.mem_cons_of_mem q hr)) hp

theorem star_decomp :
    ∀ paths : List String,
      (paths.filter (fun p => hasChar p '*')).length ≤ 1 →
      2 ≤ (paths.map (fun p => countChar p '*')).sum →
      ∃ l1 p l2, paths = l1 ++ p :: l2 ∧ (∀ q ∈ l1, hasChar q '*' = false) ∧
        2 ≤ countChar p '*' := by
  intro paths
  induction paths with
  | nil => intro _ hs; simp at hs
  | cons q rest ih =>
    intro hf hs
    by_cases hq : hasChar q '*' = true
    · have hfq : (rest.filter (fun p => hasChar p '*')).length = 0 := by
        simp only [List.filter_cons, hq, if_true, List.length_cons] at hf
        omega
      have hrest0 : ∀ r ∈ rest, hasChar r '*' = false := by
        intro r hr
        by_cases h : hasChar r '*' = true
        · exfalso
          have hmem : r ∈ rest.filter (fun p => hasChar p '*') :=
            List.mem_filter.mpr ⟨hr, h⟩
          rw [List.length_eq_zero.mp hfq] at hmem
          exact absurd hmem (List.not_mem_nil r)
        · rwa [Bool.not_eq_true] at h
      have hsum0 : (rest.map (fun p => countChar p '*')).sum = 0 := by
        apply List.sum_eq_zero
        intro x hx
        obtain ⟨r, hr, hrx⟩ := List.mem_map.mp hx
        rw [← hrx]
        exact List.count_eq_zero.mpr (by simpa [hasChar] using hrest0 r hr)
      have hq2 : 2 ≤ countChar q '*' := by
        simp only [List.map_cons, List.sum_cons, hsum0] at hs
        omega
      exact ⟨[], q, rest, rfl, by intro r hr; exact absurd hr (List.not_mem_nil r), hq2⟩
    · have hq0 : hasChar q '*' = false := by rwa [Bool.not_eq_true] at hq
      have hcount0 : countChar q '*' = 0 :=
        List.count_eq_zero.mpr (by simpa [hasChar] using hq0)
      have hf' : (rest.filter (fun p => hasChar p '*')).length ≤ 1 := by
        simpa [List.filter_cons, hq0] using hf
      have hs' : 2 ≤ (rest.map (fun p => countChar p '*')).sum := by
        simp only [List.map_cons, List.sum_cons, hcount0] at hs
        omega
      obtain ⟨l1, p, l2, heq, hl1, hp⟩ := ih hf' hs'
      refine ⟨q :: l1, p, l2, by rw [heq]; rfl, ?_, hp⟩
      intro r hr
      rcases List.mem_cons.mp hr with h | h
      · rw [h]; exact hq0
      · exact hl1 r h

/-- Claim C8: in write mode, path expansion raises a configuration error
whenever the "*" placeholder occurs more than once across the whole input
set, counting literal "*" characters over all templates combined — both for
several templates with one "*" each (caught by the one-mask check) and for a
single template with two or more "*" (caught inside `_expand_paths`). -/
theorem C8_write_mask (paths : List String) (mode : String) (num : Nat)
    (glob : String → List String) (nf : Option (Nat → String))
    (hw : hasChar mode 'w' = true)
    (hstars : 2 ≤ (paths.map (fun p => countChar p '*')).sum) :
    ∃ e, expand_paths_if_needed paths mode num glob nf = Except.error e := by
  by_cases hf : 1 < (paths.filter (fun p => hasChar p '*')).length
  · refine ⟨"When writing data, only one filename mask can be specified", ?_⟩
    rw [expand_paths_if_needed, if_pos ⟨hw, hf⟩]
  · have hf' : (paths.filter (fun p => hasChar p '*')).length ≤ 1 := by omega
    obtain ⟨l1, p, l2, heq, hl1, hp⟩ := star_decomp paths hf' hstars
    refine ⟨"Output path spec must contain exactly one placeholder", ?_⟩
    simp only [expand_paths_if_needed]
    rw [if_neg (fun hcon => hf hcon.2), heq,
      expand_loop_error_case mode _ glob nf hw l1 p l2 [] hl1 hp]

/-- Claim C8 witness: the spec's example, two write templates each carrying
one "*". -/
theorem C8_write_mask_witness :
    ∃ e, expand_paths_if_needed ["a*.csv", "b*.csv"] "wb" 2 (fun _ => []) none =
      Except.error e :=
  C8_write_mask ["a*.csv", "b*.csv"] "wb" 2 (fun _ => []) none (by decide) (by decide)

/-- Claim C9 counterexample: in write mode with requested count 2, the input
["x*.csv", "a.csv", "b.csv"] produces three concrete paths, not the
requested two — the code truncates to max(num, len(paths)) = 3, so the
result is not "truncated to exactly the requested count". -/
theorem C9_truncation_counterexample :
    expand_paths_if_needed ["x*.csv", "a.csv", "b.csv"] "wb" 2 (fun _ => [])
        (some (fun i => toString i)) = Except.ok ["x0.csv", "x1.csv", "x2.csv"] ∧
    2 < (["x0.csv", "x1.csv", "x2.csv"] : List String).length := by
  exact ⟨rfl, by decide⟩

/-- Claim C9 (amended): in write mode, the effective count is
max(requested count, number of input paths); the produced list is never
padded, and when more paths were produced than the effective count the
result is truncated to exactly the effective count, keeping the
earliest-generated entries. -/
theorem C9_truncation_amended (paths : List String) (mode : String) (num : Nat)
    (glob : String → List String) (nf : Option (Nat → String))
    (hw : hasChar mode 'w' = true) (r : List String)
    (h : expand_paths_if_needed paths mode num glob nf = Except.ok r) :
    ∃ full, expand_loop mode (max num paths.length) glob nf [] paths = Except.ok full ∧
      r = full.take (max num paths.length) ∧
      r.length = min (max num paths.length) full.length := by
  simp only [expand_paths_if_needed] at h
  by_cases hc : (hasChar mode 'w' = true ∧
      1 < (paths.filter (fun p => hasChar p '*')).length)
  · rw [if_pos hc] at h
    exact absurd h (by simp)
  · rw [if_neg hc, if_pos hw] at h
    split at h
    next e heq => exact absurd h (by simp)
    next expanded heq =>
      refine ⟨expanded, heq, ?_⟩
      split at h
      next hcond =>
        simp only [Except.ok.injEq] at h
        subst h
        exact ⟨rfl, List.length_take (max num paths.length) expanded⟩
      next hcond =>
        simp only [Except.ok.injEq] at h
        subst h
        have hlen : expanded.length ≤ max num paths.length := by
          by_contra hgt
          exact hcond ⟨hw, by omega⟩
        exact ⟨(List.take_of_length_le hlen).symm, (Nat.min_eq_right hlen).symm⟩

/-- Claim C9 witness: the amended truncation rule at the counterexample
input, where the effective count is max(2, 3) = 3. -/
theorem C9_truncation_amended_witness :
    ["x0.csv", "x1.csv", "x2.csv"] =
      (["x0.csv", "x1.csv", "x2.csv", "a.csv", "b.csv"] : List String).take (max 2 3) := by
  obtain ⟨full, heq, htake, _⟩ := C9_truncation_amended ["x*.csv", "a.csv", "b.csv"] "wb" 2
    (fun _ => []) (some (fun i => toString i)) (by decide)
    ["x0.csv", "x1.csv", "x2.csv"] rfl
  have h2 : (Except.ok full : Except String (List String)) =
      Except.ok ["x0.csv", "x1.csv", "x2.csv", "a.csv", "b.csv"] := heq.symm.trans rfl
  rw [← Except.ok.inj h2]
  exact htake

theorem startsWithSlash_append_part (x : String) (hx : startsWithSlash x = false) :
    startsWithSlash (x ++ ".part") = false := by
  unfold startsWithSlash at hx ⊢
  rw [String.data_append]
  cases hd : x.data with
  | nil => rfl
  | cons c cs =>
    rw [hd] at hx
    exact hx

theorem join_replace_part (t x : String) (ht : '*' ∉ t.data)
    (hx : startsWithSlash x = false) :
    py_replace (posixpath_join t "*.part") '*' x = posixpath_join t (x ++ ".part") := by
  have hxs : startsWithSlash (x ++ ".part") = false := startsWithSlash_append_part x hx
  have hps : ¬ (startsWithSlash "*.part" = true) := by decide
  have hxs' : ¬ (startsWithSlash (x ++ ".part") = true) := by
    rw [hxs]
    exact Bool.false_ne_true
  unfold posixpath_join
  rw [if_neg hps, if_neg hxs']
  by_cases hemp : t = "" ∨ endsWithSlash t = true
  · rw [if_pos hemp, if_pos hemp]
    apply String.ext
    show replaceChar '*' x.data (t ++ "*.part").data = (t ++ (x ++ ".part")).data
    rw [String.data_append, String.data_append, String.data_append,
      (by rfl : ("*.part" : String).data = '*' :: (".part" : String).data),
      replaceChar_single '*' x.data t.data (".part" : String).data ht (by decide)]
    simp [List.append_assoc]
  · rw [if_neg hemp, if_neg hemp]
    apply String.ext
    show replaceChar '*' x.data (t ++ "/" ++ "*.part").data = (t ++ "/" ++ (x ++ ".part")).data
    rw [String.data_append, String.data_append, String.data_append, String.data_append,
      (by rfl : ("*.part" : String).data = '*' :: (".part" : String).data)]
    have ht' : '*' ∉ t.data ++ ("/" : String).data := by
      intro hm
      rcases List.mem_append.mp hm with hm | hm
      · exact ht hm
      · simp at hm
    rw [List.append_assoc t.data, ← List.append_assoc]
    rw [replaceChar_single '*' x.data (t.data ++ ("/" : String).data)
      (".part" : String).data ht' (by decide)]
    simp [List.append_assoc]

/-- Claim C10 counterexample: with template "d" (no "*"), count 1 and the
name function returning "/e", the code produces "d//e.part", which differs
from the claim's join(template, g(i) + ".part") = "/e.part" (os.path.join
discards the directory before an absolute second component). -/
theorem C10_expand_counterexample :
    _expand_paths "d" (some (fun _ => "/e")) 1 = Except.ok ["d//e.part"] ∧
    posixpath_join "d" ("/e" ++ ".part") = "/e.part" ∧
    ("d//e.part" : String) ≠ "/e.part" := by
  refine ⟨rfl, by decide, by decide⟩

/-- Claim C10 (amended): a write-mode expansion of a single string template
with no "*", requested count n and name function g does not fail, treats the
template as a directory, and produces exactly the n paths
join(template, g(i) + ".part") for i in [0, n) in index order — provided no
g(i) begins with the path separator (otherwise os.path.join would discard
the directory while the code's textual substitution keeps it). -/
theorem C10_expand_amended (t : String) (g : Nat → String) (n : Nat)
    (ht : countChar t '*' = 0) (hg : ∀ i, startsWithSlash (g i) = false) :
    _expand_paths t (some g) n =
      Except.ok ((List.range n).map (fun i => posixpath_join t (g i ++ ".part"))) := by
  have htm : '*' ∉ t.data := List.count_eq_zero.mp ht
  have hstar : ¬ (hasChar t '*' = true) := by
    rw [hasChar_false_of_count_zero t '*' ht]
    exact Bool.false_ne_true
  simp only [_expand_paths]
  rw [if_neg (by omega : ¬ 1 < countChar t '*'), if_neg hstar]
  have hfun : (fun i => py_replace (posixpath_join t "*.part") '*' (g i)) =
      (fun i => posixpath_join t (g i ++ ".part")) :=
    funext fun i => join_replace_part t (g i) htm (hg i)
  rw [hfun]

/-- Claim C10 witness: template "out" with count 2 and a constant name
function produces the two ".part" members of the directory. -/
theorem C10_expand_amended_witness :
    _expand_paths "out" (some (fun _ => "f")) 2 =
      Except.ok ["out/f.part", "out/f.part"] := by
  rw [C10_expand_amended "out" (fun _ => "f") 2 (by decide) (fun _ => rfl)]
  rfl

end FsspecCore
